import Mathlib

/-!
Shallow embedding of the vpnctl control plane (Go) in Lean 4.

The controller side comes from `internal/controller/server.go` and
`internal/store/registry.go`; the agent side comes from the agent package
(reconciler loop, `directKeepalive`, `peersEqual`) and `internal/addrutil`
(`ProbeAddr`, `hostFromAddr`).  Go strings are Lean `String`s; Go maps are
association lists with insert-or-replace (`upsertA`); Go `time.Time` values
are `Int` seconds; Go machine integers that can overflow are reduced
modulo `2 ^ 32` where the source uses `uint32` arithmetic.
-/

namespace Vpnctl

/-- Lookup in an association list, the model of a Go map read. -/
def lookupA {β : Type} : List (String × β) → String → Option β
  | [], _ => none
  | (k', v) :: rest, k => if k' = k then some v else lookupA rest k

/-- Insert-or-replace in an association list, the model of a Go map write. -/
def upsertA {β : Type} : List (String × β) → String → β → List (String × β)
  | [], k, v => [(k, v)]
  | (k', v') :: rest, k, v =>
    if k' = k then (k, v) :: rest else (k', v') :: upsertA rest k v

theorem lookupA_upsertA_self {β : Type} (m : List (String × β)) (k : String) (v : β) :
    lookupA (upsertA m k v) k = some v := by
  induction m with
  | nil => simp [upsertA, lookupA]
  | cons kv rest ih =>
    obtain ⟨k', v'⟩ := kv
    by_cases h : k' = k
    · simp [upsertA, h, lookupA]
    · simp [upsertA, h, lookupA, ih]

theorem lookupA_upsertA_ne {β : Type} (m : List (String × β)) (k k' : String) (v : β)
    (h : k' ≠ k) : lookupA (upsertA m k v) k' = lookupA m k' := by
  induction m with
  | nil => simp [upsertA, lookupA, Ne.symm h]
  | cons kv rest ih =>
    obtain ⟨k0, v0⟩ := kv
    by_cases h0 : k0 = k
    · subst h0
      simp [upsertA, lookupA, Ne.symm h, ih]
    · simp only [upsertA, if_neg h0, lookupA]
      by_cases h1 : k0 = k'
      · simp [h1]
      · simp [h1, ih]

theorem lookupA_mem {β : Type} {m : List (String × β)} {k : String} {v : β}
    (h : lookupA m k = some v) : (k, v) ∈ m := by
  induction m with
  | nil => simp [lookupA] at h
  | cons kv rest ih =>
    obtain ⟨k', v'⟩ := kv
    by_cases hk : k' = k
    · subst hk
      simp [lookupA] at h
      simp [h]
    · simp [lookupA, hk] at h
      exact List.mem_cons_of_mem _ (ih h)

/-! ## Data model (`internal/store/registry.go`, `internal/api/types.go`) -/

/-- A persisted node record (`store.NodeInfo`). -/
structure NodeInfo where
  id : String
  name : String
  pubKey : String
  vpnIP : String
  endpoint : String
  probePort : Int
  lastSeenAt : Int
  status : String
  natType : String
  publicAddr : String
deriving DecidableEq, Repr

/-- The persisted registry (`store.Registry`). -/
structure Registry where
  updatedAt : Int
  nodes : List NodeInfo
deriving DecidableEq, Repr

/-- A candidate entry of a Candidates / Register response (`api.PeerCandidate`). -/
structure PeerCandidate where
  id : String
  name : String
  pubKey : String
  vpnIP : String
  endpoint : String
  publicAddr : String
  natType : String
  probePort : Int
  p2pReady : Bool
deriving DecidableEq, Repr

/-- `api.RegisterRequest`. -/
structure RegisterRequest where
  name : String
  pubKey : String
  vpnIP : String
  endpoint : String
  publicAddr : String
  natType : String
  probePort : Int
deriving DecidableEq, Repr

/-- `api.RegisterResponse`. -/
structure RegisterResponse where
  nodeID : String
  vpnIP : String
  peers : List PeerCandidate
deriving DecidableEq, Repr

/-- `api.NATProbeRequest`. -/
structure NATProbeRequest where
  nodeID : String
  natType : String
  publicAddr : String
deriving DecidableEq, Repr

/-- `api.DirectResultRequest` (rtt and reason are ignored by the handler's state change). -/
structure DirectResultRequest where
  nodeID : String
  peerID : String
  success : Bool
deriving DecidableEq, Repr

/-- The controller's in-memory evidence map
`directOK : map[node_id]map[peer_id]time.Time`. -/
abbrev DirectOK : Type := List (String × List (String × Int))

/-- Read `directOK[a][b]`. -/
def lookup2 (dok : DirectOK) (a b : String) : Option Int :=
  match lookupA dok a with
  | none => none
  | some m => lookupA m b

/-! ## Readiness oracle (`p2pReadyLocked`, server.go lines 359-378) -/

/-- The freshness TTL: `2 * time.Minute`, in seconds. -/
def p2pTTL : Int := 120

/-- `Server.p2pReadyLocked`: mutual direct-probe success within the TTL. -/
def p2pReadyLocked (dok : DirectOK) (now : Int) (a b : String) : Bool :=
  match lookupA dok a, lookupA dok b with
  | some ab, some ba =>
    match lookupA ab b, lookupA ba a with
    | some t1, some t2 => !(now - t1 > p2pTTL || now - t2 > p2pTTL)
    | _, _ => false
  | _, _ => false

/-- `Server.peersLocked`: every registry node except the observer, with the
pair readiness flag attached. -/
def peersLocked (reg : Registry) (dok : DirectOK) (now : Int) (nodeID : String) :
    List PeerCandidate :=
  reg.nodes.filterMap fun n =>
    if n.id = nodeID then none
    else some
      { id := n.id, name := n.name, pubKey := n.pubKey, vpnIP := n.vpnIP,
        endpoint := n.endpoint, publicAddr := n.publicAddr, natType := n.natType,
        probePort := n.probePort, p2pReady := p2pReadyLocked dok now nodeID n.id }

/-- `Server.fillObservedEndpoints`: overwrite candidate endpoints from the
observed WireGuard dump map (public key to endpoint); best effort, an empty
map (read error, unset interface) changes nothing, as does a missing or
empty entry. -/
def fillObserved (m : List (String × String)) (peers : List PeerCandidate) :
    List PeerCandidate :=
  if m.isEmpty then peers
  else peers.map fun p =>
    if p.pubKey = "" then p
    else
      match lookupA m p.pubKey with
      | some ep => if ep = "" then p else { p with endpoint := ep }
      | none => p

/-- `Server.handleCandidates` after JSON decoding: status and candidate list. -/
def handleCandidates (reg : Registry) (dok : DirectOK) (now : Int)
    (obs : List (String × String)) (nodeID : String) : Nat × List PeerCandidate :=
  if nodeID = "" then (400, [])
  else (200, fillObserved obs (peersLocked reg dok now nodeID))

/-! ## Direct-result handler (`handleDirectResult`, server.go lines 290-315) -/

/-- The evidence write `directOK[node][peer] = now` (creating the inner map
when absent). -/
def setDirectOK (dok : DirectOK) (a b : String) (t : Int) : DirectOK :=
  match lookupA dok a with
  | some m => upsertA dok a (upsertA m b t)
  | none => upsertA dok a (upsertA [] b t)

/-- `Server.handleDirectResult` after JSON decoding: the evidence map is
written only for a success with non-empty ids; the reply is always 204. -/
def handleDirectResult (dok : DirectOK) (now : Int) (req : DirectResultRequest) :
    Nat × DirectOK :=
  if req.nodeID ≠ "" ∧ req.peerID ≠ "" ∧ req.success then
    (204, setDirectOK dok req.nodeID req.peerID now)
  else (204, dok)

/-! ## NAT-probe handler (`handleNATProbe`, server.go lines 254-288) -/

/-- The registry update of `handleNATProbe`: the first node whose id matches
gets its NAT fields and last-seen refreshed (the Go loop breaks after the
first match); nothing is created. -/
def natProbeNodes : List NodeInfo → NATProbeRequest → Int → List NodeInfo
  | [], _, _ => []
  | n :: rest, req, now =>
    if n.id = req.nodeID then
      { n with natType := req.natType, publicAddr := req.publicAddr, lastSeenAt := now } :: rest
    else n :: natProbeNodes rest req now

/-- `Server.handleNATProbe` after JSON decoding.  `SaveRegistry` stamps
`updated_at` unconditionally before writing; `saveOk` models the disk write
outcome. -/
def handleNATProbe (reg : Registry) (now : Int) (saveOk : Bool)
    (req : NATProbeRequest) : Nat × Registry :=
  if req.nodeID = "" then (400, reg)
  else
    let reg' : Registry := ⟨now, natProbeNodes reg.nodes req now⟩
    if saveOk then (204, reg') else (500, reg')

/-! ## NAT classes and keepalive selection (`stunutil`, agent `directKeepalive`) -/

def NATTypeUnknown : String := "unknown"
def NATTypeSymmetric : String := "symmetric"
def NATTypeConeOrRestricted : String := "cone_or_restricted"

/-- The agent-side configuration fields consulted by the reconciler. -/
structure NodeCfg where
  keepaliveSec : Int
  directKeepaliveSec : Int
  directKeepaliveSymmetricSec : Int
  directKeepaliveUnknownSec : Int
deriving DecidableEq, Repr

/-- Config defaults (`config.DefaultKeepaliveSec` and friends). -/
def DefaultKeepaliveSec : Int := 25
def DefaultDirectKeepaliveSec : Int := 25
def DefaultDirectKeepaliveSymmetricSec : Int := 15
def DefaultDirectKeepaliveUnknownSec : Int := 20

/-- The `NodeCfg` produced by `config.ApplyDefaults` when none of the
keepalive fields are set. -/
def defaultedCfg : NodeCfg :=
  { keepaliveSec := DefaultKeepaliveSec,
    directKeepaliveSec := DefaultDirectKeepaliveSec,
    directKeepaliveSymmetricSec := DefaultDirectKeepaliveSymmetricSec,
    directKeepaliveUnknownSec := DefaultDirectKeepaliveUnknownSec }

/-- Agent `directKeepalive`: the Go switch falls through from `""` to the
symmetric case, and every branch whose specific value is unset falls out of
the switch to `DirectKeepaliveSec`-then-`KeepaliveSec`. -/
def directKeepalive (cfg : NodeCfg) (natType : String) : Int :=
  let bottom : Int :=
    if cfg.directKeepaliveSec > 0 then cfg.directKeepaliveSec else cfg.keepaliveSec
  if natType = "" ∨ natType = NATTypeSymmetric then
    if cfg.directKeepaliveSymmetricSec > 0 then cfg.directKeepaliveSymmetricSec else bottom
  else if natType = NATTypeUnknown then
    if cfg.directKeepaliveUnknownSec > 0 then cfg.directKeepaliveUnknownSec else bottom
  else bottom

/-! ## IPv4 text (netip.ParseAddr / ParsePrefix / Addr.String, IPv4 forms) -/

def isDigitC (c : Char) : Bool := decide ('0' ≤ c ∧ c ≤ '9')

def digitVal (c : Char) : Nat := c.toNat - 48

/-- Decimal value of a digit list (most significant first). -/
def decimalVal (l : List Char) : Nat := l.foldl (fun a c => a * 10 + digitVal c) 0

/-- One dotted-quad field as accepted by `netip.ParseAddr`: one to three
digits, no leading zero, value at most 255. -/
def parseOctet (l : List Char) : Option Nat :=
  if l = [] then none
  else if ¬ l.all isDigitC then none
  else if 3 < l.length then none
  else if 1 < l.length ∧ l.head? = some '0' then none
  else if 255 < decimalVal l then none
  else some (decimalVal l)

/-- `strings.Split`-style split of a character list at a separator. -/
def splitChar (c : Char) : List Char → List (List Char)
  | [] => [[]]
  | x :: xs =>
    if x = c then [] :: splitChar c xs
    else
      match splitChar c xs with
      | [] => [[x]]
      | h :: t => (x :: h) :: t

/-- `netip.ParseAddr` restricted to its IPv4 (dotted quad) branch; the
address is the big-endian `Nat` value.  IPv6 text parses to `none` here:
every consumer in the embedded code either rejects a non-IPv4 address
(`allocateVPNIP`'s `Is4` check) or stores it under a representation that
can never collide with an IPv4 value (the `used` set), so collapsing IPv6
to a parse failure is behavior-preserving. -/
def parseIPv4 (l : List Char) : Option Nat :=
  match splitChar '.' l with
  | [f1, f2, f3, f4] =>
    match parseOctet f1, parseOctet f2, parseOctet f3, parseOctet f4 with
    | some a, some b, some c, some d => some (a * 16777216 + b * 65536 + c * 256 + d)
    | _, _, _, _ => none
  | _ => none

/-- Index of the first occurrence of a character (`bytealg.IndexByteString`). -/
def firstIdxOfC (c : Char) : List Char → Option Nat
  | [] => none
  | x :: xs => if x = c then some 0 else (firstIdxOfC c xs).map (· + 1)

/-- Index of the last occurrence of a character (`bytealg.LastIndexByteString`). -/
def lastIdxOfC (c : Char) (l : List Char) : Option Nat :=
  (firstIdxOfC c l.reverse).map fun i => l.length - 1 - i

/-- `netip.ParsePrefix` on IPv4 text: address part before the last `/`,
bits part after it (digits only, no leading zero, at most 32). -/
def parseBits (l : List Char) : Option Nat :=
  if l = [] then none
  else if ¬ l.all isDigitC then none
  else if 1 < l.length ∧ l.head? = some '0' then none
  else if 32 < decimalVal l then none
  else some (decimalVal l)

def parsePfx (s : String) : Option (Nat × Nat) :=
  match lastIdxOfC '/' s.data with
  | none => none
  | some i =>
    match parseIPv4 (s.data.take i), parseBits (s.data.drop (i + 1)) with
    | some a, some b => some (a, b)
    | _, _ => none

/-- Decimal text of one octet (`0 ≤ n ≤ 255`), as produced by
`netip.Addr.String`. -/
def octChars (n : Nat) : List Char :=
  if n < 10 then [Char.ofNat (48 + n)]
  else if n < 100 then [Char.ofNat (48 + n / 10), Char.ofNat (48 + n % 10)]
  else [Char.ofNat (48 + n / 100), Char.ofNat (48 + n / 10 % 10), Char.ofNat (48 + n % 10)]

/-- Dotted-quad text of an IPv4 address value. -/
def ipChars (a : Nat) : List Char :=
  octChars (a / 16777216 % 256) ++ '.' ::
    (octChars (a / 65536 % 256) ++ '.' ::
      (octChars (a / 256 % 256) ++ '.' :: octChars (a % 256)))

def ipString (a : Nat) : String := ⟨ipChars a⟩

/-- `addr.String() + "/32"`, the allocator's return form. -/
def ipCIDR32 (a : Nat) : String := ⟨ipChars a ++ ['/', '3', '2']⟩

/-! ## Address allocator (`allocateVPNIP`, server.go lines 454-497) -/

/-- The allocator's per-node parse of a stored overlay: `ParsePrefix` first
(taking its address), then `ParseAddr`. -/
def parseUsedAddr (s : String) : Option Nat :=
  match parsePfx s with
  | some (a, _) => some a
  | none => parseIPv4 s.data

/-- The set of already-claimed addresses, as the allocator computes it. -/
def usedAddrs (nodes : List NodeInfo) : List Nat :=
  nodes.filterMap fun n => if n.vpnIP = "" then none else parseUsedAddr n.vpnIP

/-- `allocateVPNIP`: first host offset in `1 .. size-2` (skipping the
network and broadcast addresses) whose address is unclaimed; errors
(collapsed to `none`) on an empty or unparseable or non-IPv4 or oversized
prefix, or on exhaustion.  `addIPv4` wraps at `2 ^ 32`. -/
def allocateVPNIP (cidr : String) (nodes : List NodeInfo) : Option String :=
  if cidr = "" then none
  else
    match parsePfx cidr with
    | none => none
    | some (a, ones) =>
      let size := 2 ^ (32 - ones)
      let base := a / size * size
      if 1048576 < size then none
      else
        ((List.range' 1 (size - 2)).find? fun i =>
            !(usedAddrs nodes).contains ((base + i) % 4294967296)).map
          fun i => ipCIDR32 ((base + i) % 4294967296)

/-! ## Register handler (`handleRegister`, server.go lines 91-192) -/

/-- The pieces of controller configuration and environment the handler
consults.  `obs` is the observed-endpoint map of `fillObservedEndpoints`
(empty when the interface is unset or the dump read fails); `saveOk` and
`applyOk` are the outcomes of the disk write and of `applyWG`. -/
structure Env where
  vpnCIDR : String
  wgApply : Bool
  saveOk : Bool
  applyOk : Bool
  obs : List (String × String)

/-- Upsert by name, exactly as the handler's loop-then-append: the first
node whose name matches is overwritten in place (its id backfilled from
the name when empty), otherwise a fresh record is appended with id = name.
Returns the node id together with the new node list. -/
def upsertNode (nodes : List NodeInfo) (req : RegisterRequest) (ip : String) (now : Int) :
    String × List NodeInfo :=
  match nodes with
  | [] =>
    (req.name,
      [{ id := req.name, name := req.name, pubKey := req.pubKey, vpnIP := ip,
         endpoint := req.endpoint, probePort := req.probePort, publicAddr := req.publicAddr,
         natType := req.natType, lastSeenAt := now, status := "online" }])
  | n :: rest =>
    if n.name = req.name then
      let nid := if n.id = "" then req.name else n.id
      (nid,
        { n with id := nid, pubKey := req.pubKey, vpnIP := ip, endpoint := req.endpoint,
                 probePort := req.probePort, publicAddr := req.publicAddr,
                 natType := req.natType, lastSeenAt := now, status := "online" } :: rest)
    else
      let r := upsertNode rest req ip now
      (r.1, n :: r.2)

/-- Observable events of one `handleRegister` run, in order: registry lock
acquire/release and the moment the HTTP response is written. -/
inductive REvent where
  | lock : REvent
  | unlock : REvent
  | respond : Nat → REvent
deriving DecidableEq, Repr

/-- Result of one `handleRegister` run. -/
structure RegResult where
  status : Nat
  resp : Option RegisterResponse
  reg : Registry
  events : List REvent
deriving Repr

/-- `Server.handleRegister` after JSON decoding.  The event lists mirror the
source paths exactly: on a validation failure the lock is never taken; on an
allocation failure the error is written while the lock is held and the
deferred unlock runs afterwards; on a save failure the explicit unlock runs
before the response but the `locked` flag is never cleared, so the deferred
unlock fires a second time; on the apply-failure and success paths the
explicit unlock precedes the response.  `SaveRegistry` stamps `updated_at`
whenever it is invoked. -/
def handleRegister (env : Env) (reg : Registry) (dok : DirectOK) (now : Int)
    (req : RegisterRequest) : RegResult :=
  if req.name = "" ∨ req.pubKey = "" then ⟨400, none, reg, [.respond 400]⟩
  else
    let alloc := if req.vpnIP = "" then allocateVPNIP env.vpnCIDR reg.nodes else some req.vpnIP
    match alloc with
    | none => ⟨400, none, reg, [.lock, .respond 400, .unlock]⟩
    | some ip =>
      let r := upsertNode reg.nodes req ip now
      let reg' : Registry := ⟨now, r.2⟩
      if env.saveOk then
        let peers := fillObserved env.obs (peersLocked reg' dok now r.1)
        if env.wgApply && !env.applyOk then
          ⟨500, none, reg', [.lock, .unlock, .respond 500]⟩
        else
          ⟨200, some ⟨r.1, ip, peers⟩, reg', [.lock, .unlock, .respond 200]⟩
      else ⟨500, none, reg', [.lock, .unlock, .respond 500, .unlock]⟩

/-! ## Probe addressing (`internal/addrutil`: `ProbeAddr`, `hostFromAddr`) -/

/-- `unicode.IsSpace`: the White_Space code points. -/
def isSpaceGo (c : Char) : Bool :=
  c.toNat ∈ [0x9, 0xA, 0xB, 0xC, 0xD, 0x20, 0x85, 0xA0, 0x1680,
    0x2000, 0x2001, 0x2002, 0x2003, 0x2004, 0x2005, 0x2006, 0x2007, 0x2008,
    0x2009, 0x200A, 0x2028, 0x2029, 0x202F, 0x205F, 0x3000]

/-- `strings.TrimSpace`. -/
def trimSpaceGo (l : List Char) : List Char :=
  ((l.dropWhile isSpaceGo).reverse.dropWhile isSpaceGo).reverse

/-- `strings.Trim(a, "[]")`. -/
def trimBracketsGo (l : List Char) : List Char :=
  let cut : Char → Bool := fun c => c = '[' || c = ']'
  ((l.dropWhile cut).reverse.dropWhile cut).reverse

/-- `strconv.Atoi` success predicate: optional sign, at least one digit,
all digits, value within the 64-bit int range. -/
def atoiOk (l : List Char) : Bool :=
  match l with
  | [] => false
  | c :: rest =>
    let digits := if c = '+' || c = '-' then rest else l
    if digits = [] then false
    else if ¬ digits.all isDigitC then false
    else if c = '-' then decimalVal digits ≤ 2 ^ 63
    else decimalVal digits < 2 ^ 63

/-- `net.SplitHostPort`.  All error returns are collapsed to `none`; the
success value is the `(host, port)` pair. -/
def splitHostPort (s : List Char) : Option (List Char × List Char) :=
  match lastIdxOfC ':' s with
  | none => none
  | some i =>
    match s with
    | [] => none
    | c0 :: _ =>
      if c0 = '[' then
        match firstIdxOfC ']' s with
        | none => none
        | some e =>
          if e + 1 = s.length then none
          else if e + 1 = i then
            if (firstIdxOfC '[' (s.drop 1)).isSome then none
            else if (firstIdxOfC ']' (s.drop (e + 1))).isSome then none
            else some ((s.drop 1).take (e - 1), s.drop (i + 1))
          else none
      else
        let host := s.take i
        if host.contains ':' then none
        else if (firstIdxOfC '[' s).isSome then none
        else if (firstIdxOfC ']' s).isSome then none
        else some (host, s.drop (i + 1))

/-- `addrutil.hostFromAddr`. -/
def hostFromAddr (addr : String) : String :=
  let a := trimSpaceGo addr.data
  if a = [] then ""
  else
    match splitHostPort a with
    | some hp => ⟨hp.1⟩
    | none =>
      let peeled : Option (List Char) :=
        if 1 < a.count ':' ∧ a.head? ≠ some '[' then
          match lastIdxOfC ':' a with
          | some last =>
            if 0 < last ∧ last + 1 < a.length then
              if atoiOk (a.drop (last + 1)) then some (a.take last) else none
            else none
          | none => none
        else none
      match peeled with
      | some h => ⟨h⟩
      | none => if a.contains ':' then ⟨trimBracketsGo a⟩ else ⟨a⟩

/-- `strconv.Itoa` on a Go `int`. -/
def itoaGo (n : Int) : String :=
  if n < 0 then "-" ++ Nat.repr (-n).toNat else Nat.repr n.toNat

/-- `net.JoinHostPort`. -/
def joinHostPort (host port : String) : String :=
  if host.data.contains ':' then "[" ++ host ++ "]:" ++ port
  else host ++ ":" ++ port

/-- `addrutil.ProbeAddr`: host of `publicAddr` when present, else host of
`endpoint`, always joined with `probePort`. -/
def ProbeAddr (publicAddr endpoint : String) (probePort : Int) : String × Bool :=
  if probePort ≤ 0 then ("", false)
  else
    let host0 := hostFromAddr publicAddr
    let host := if host0 = "" then hostFromAddr endpoint else host0
    if host = "" then ("", false)
    else (joinHostPort host (itoaGo probePort), true)

/-! ## Agent reconciler (agent `Run` direct tick, `peersEqual`) -/

/-- A desired WireGuard peer entry (`wireguard.Peer` as the agent fills it). -/
structure WGPeer where
  publicKey : String
  endpoint : String
  allowedIPs : List String
  keepaliveSec : Int
deriving DecidableEq, Repr

/-- Agent `normalizeHostIP`: add `/32` to a bare address. -/
def normalizeHostIP (v : String) : String :=
  if v = "" then "" else if v.data.contains '/' then v else v ++ "/32"

/-- State threaded through one directTicker pass: the desired map and the
duplicate-address guard `allowedOwner`. -/
structure DesiredState where
  desired : List (String × WGPeer)
  owner : List (String × String)
deriving Repr

/-- One candidate's contribution to the desired set (agent `Run`,
the directTicker loop body, injection part). -/
def desiredStep (cfg : NodeCfg) (st : DesiredState) (c : PeerCandidate) : DesiredState :=
  let allowedIP := normalizeHostIP c.vpnIP
  let injOwn : Bool × List (String × String) :=
    if c.p2pReady ∧ allowedIP ≠ "" then
      match lookupA st.owner allowedIP with
      | some prev =>
        if prev ≠ c.id then (false, st.owner)
        else (true, upsertA st.owner allowedIP c.id)
      | none => (true, upsertA st.owner allowedIP c.id)
    else (c.p2pReady, st.owner)
  let desired' :=
    if injOwn.1 ∧ allowedIP ≠ "" ∧ c.pubKey ≠ "" ∧ c.endpoint ≠ "" then
      upsertA st.desired c.id
        ⟨c.pubKey, c.endpoint, [allowedIP], directKeepalive cfg c.natType⟩
    else st.desired
  ⟨desired', injOwn.2⟩

/-- The desired peer map built from one candidate list. -/
def buildDesired (cfg : NodeCfg) (cands : List PeerCandidate) : DesiredState :=
  cands.foldl (desiredStep cfg) ⟨[], []⟩

/-- Agent `peersEqual`: equal sizes and field-wise equal entries per key. -/
def wgPeerEqB (a b : WGPeer) : Bool :=
  a.publicKey == b.publicKey && a.endpoint == b.endpoint &&
    a.keepaliveSec == b.keepaliveSec && a.allowedIPs == b.allowedIPs

def peersEqualB (a b : List (String × WGPeer)) : Bool :=
  a.length == b.length &&
    a.all fun kv =>
      match lookupA b kv.1 with
      | some w => wgPeerEqB kv.2 w
      | none => false

/-- Agent `peersFromMap` (Go map iteration order is unspecified; the model
fixes entry order, and properties are stated order-independently). -/
def peersFromMap (m : List (String × WGPeer)) : List WGPeer := m.map (·.2)

/-- The apply calls issued by one reconcile tick together with the new
last-applied set (agent `Run`, lines after the candidate loop): apply only
when the server config is known and the desired set differs; the
last-applied set advances only when the apply succeeds. -/
structure TickResult where
  applies : List (List WGPeer)
  active : List (String × WGPeer)
deriving Repr

def reconcileTick (serverSet applyOk : Bool) (active desired : List (String × WGPeer)) :
    TickResult :=
  if serverSet then
    if peersEqualB active desired then ⟨[], active⟩
    else if applyOk then ⟨[peersFromMap desired], desired⟩
    else ⟨[peersFromMap desired], active⟩
  else ⟨[], active⟩

/-! ## Spec-side definitions used to state the claims -/

/-- Spec reading of the readiness rule: both directions hold a success
timestamp at most 120 seconds old. -/
def mutualFresh (dok : DirectOK) (now : Int) (a b : String) : Prop :=
  ∃ t1 t2, lookup2 dok a b = some t1 ∧ lookup2 dok b a = some t2 ∧
    now - t1 ≤ 120 ∧ now - t2 ≤ 120

/-- Spec reading of the generic direct keepalive: `direct_keepalive_sec`
when set, else the plain `keepalive_sec`. -/
def specGenericKeepalive (cfg : NodeCfg) : Int :=
  if 0 < cfg.directKeepaliveSec then cfg.directKeepaliveSec else cfg.keepaliveSec

/-- Spec reading of the short (symmetric) keepalive with generic fallback. -/
def specShortKeepalive (cfg : NodeCfg) : Int :=
  if 0 < cfg.directKeepaliveSymmetricSec then cfg.directKeepaliveSymmetricSec
  else specGenericKeepalive cfg

/-- Spec reading of the medium (unknown) keepalive with generic fallback. -/
def specMediumKeepalive (cfg : NodeCfg) : Int :=
  if 0 < cfg.directKeepaliveUnknownSec then cfg.directKeepaliveUnknownSec
  else specGenericKeepalive cfg

/-- Spec reading of the long keepalive (every other class): the generic
direct keepalive with its own fallback. -/
def specLongKeepalive (cfg : NodeCfg) : Int := specGenericKeepalive cfg

/-! ## Helper lemmas -/

theorem p2pReadyLocked_iff_mutualFresh (dok : DirectOK) (now : Int) (a b : String) :
    p2pReadyLocked dok now a b = true ↔ mutualFresh dok now a b := by
  unfold p2pReadyLocked mutualFresh lookup2 p2pTTL
  cases hab : lookupA dok a with
  | none => simp [hab]
  | some ab =>
    cases hba : lookupA dok b with
    | none => simp [hab, hba]
    | some ba =>
      cases h1 : lookupA ab b with
      | none => simp [hab, hba, h1]
      | some t1 =>
        cases h2 : lookupA ba a with
        | none => simp [hab, hba, h1, h2]
        | some t2 =>
          simp only [hab, hba, h1, h2, Bool.not_eq_true', Bool.or_eq_false_iff,
            decide_eq_false_iff_not, not_lt, Option.some.injEq]
          constructor
          · rintro ⟨hle1, hle2⟩
            exact ⟨t1, t2, rfl, rfl, hle1, hle2⟩
          · rintro ⟨u1, u2, hu1, hu2, hle1, hle2⟩
            cases hu1; cases hu2; exact ⟨hle1, hle2⟩

theorem mem_fillObserved {m : List (String × String)} {ps : List PeerCandidate}
    {c : PeerCandidate} (h : c ∈ fillObserved m ps) :
    ∃ p ∈ ps, c.id = p.id ∧ c.p2pReady = p.p2pReady := by
  unfold fillObserved at h
  by_cases hm : m.isEmpty
  · rw [if_pos hm] at h
    exact ⟨c, h, rfl, rfl⟩
  · rw [if_neg hm] at h
    obtain ⟨p, hp, hc⟩ := List.mem_map.mp h
    refine ⟨p, hp, ?_⟩
    subst hc
    by_cases h1 : p.pubKey = ""
    · simp [h1]
    · rw [if_neg h1]
      cases h2 : lookupA m p.pubKey with
      | none => exact ⟨rfl, rfl⟩
      | some ep =>
        by_cases h3 : ep = ""
        · simp [h3]
        · simp [h3]

theorem mem_peersLocked {reg : Registry} {dok : DirectOK} {now : Int}
    {nodeID : String} {p : PeerCandidate} (h : p ∈ peersLocked reg dok now nodeID) :
    p.p2pReady = p2pReadyLocked dok now nodeID p.id := by
  unfold peersLocked at h
  obtain ⟨n, _, hn⟩ := List.mem_filterMap.mp h
  by_cases hid : n.id = nodeID
  · simp [hid] at hn
  · rw [if_neg hid] at hn
    cases hn
    rfl

/-! ## Claim theorems -/

/-- C9: `ProbeAddr` uses the host of `publicAddr` when present, else the
host of `endpoint`, always joined with `probePort`; in particular
`ProbeAddr "39.119.108.243:33134" "39.119.108.243:51820" 51900` is
`"39.119.108.243:51900"` and `ProbeAddr "" "2001:db8::1:51820" 51900` is
`"[2001:db8::1]:51900"`. -/
theorem C9_probe_addr :
    (∀ (pa ep : String) (p : Int), 0 < p → hostFromAddr pa ≠ "" →
      ProbeAddr pa ep p = (joinHostPort (hostFromAddr pa) (itoaGo p), true)) ∧
    (∀ (pa ep : String) (p : Int), 0 < p → hostFromAddr pa = "" → hostFromAddr ep ≠ "" →
      ProbeAddr pa ep p = (joinHostPort (hostFromAddr ep) (itoaGo p), true)) ∧
    ProbeAddr "39.119.108.243:33134" "39.119.108.243:51820" 51900 =
      ("39.119.108.243:51900", true) ∧
    ProbeAddr "" "2001:db8::1:51820" 51900 = ("[2001:db8::1]:51900", true) := by
  refine ⟨?_, ?_, by decide, by decide⟩
  · intro pa ep p hp h
    simp [ProbeAddr, not_le.mpr hp, h]
  · intro pa ep p hp h0 h1
    simp [ProbeAddr, not_le.mpr hp, h0, h1]

theorem C9_probe_addr_witness :
    ProbeAddr "8.8.8.8:1000" "x" 51900 =
      (joinHostPort (hostFromAddr "8.8.8.8:1000") (itoaGo 51900), true) :=
  C9_probe_addr.1 "8.8.8.8:1000" "x" 51900 (by decide) (by decide)

/-- C8: the evidence map is written only by a success submission with
non-empty source and target ids; a failure submission leaves the map
exactly unchanged and the handler still replies 204. -/
theorem C8_direct_result_frame (dok : DirectOK) (now : Int) (req : DirectResultRequest) :
    ((handleDirectResult dok now req).2 ≠ dok →
      req.success = true ∧ req.nodeID ≠ "" ∧ req.peerID ≠ "") ∧
    (req.success = false →
      (handleDirectResult dok now req).2 = dok ∧ (handleDirectResult dok now req).1 = 204) := by
  unfold handleDirectResult
  by_cases hc : req.nodeID ≠ "" ∧ req.peerID ≠ "" ∧ req.success
  · rw [if_pos hc]
    exact ⟨fun _ => ⟨hc.2.2, hc.1, hc.2.1⟩, fun hf => absurd hc.2.2 (by simp [hf])⟩
  · rw [if_neg hc]
    exact ⟨fun h => absurd rfl h, fun _ => ⟨rfl, rfl⟩⟩

theorem C8_direct_result_frame_witness :
    (handleDirectResult [("a", [("b", 3)])] 5 ⟨"a", "b", false⟩).2 = [("a", [("b", 3)])] ∧
    (handleDirectResult [("a", [("b", 3)])] 5 ⟨"a", "b", false⟩).1 = 204 :=
  (C8_direct_result_frame [("a", [("b", 3)])] 5 ⟨"a", "b", false⟩).2 rfl

theorem natProbeNodes_no_match (nodes : List NodeInfo) (req : NATProbeRequest) (now : Int)
    (h : ∀ n ∈ nodes, n.id ≠ req.nodeID) : natProbeNodes nodes req now = nodes := by
  induction nodes with
  | nil => rfl
  | cons n rest ih =>
    unfold natProbeNodes
    rw [if_neg (h n (List.mem_cons_self n rest))]
    rw [ih fun m hm => h m (List.mem_cons_of_mem n hm)]

/-- C10: a NATProbe submission whose node id matches no registered node
still gets a 204 reply, creates no node record and leaves every node record
unchanged; only the registry-level `updated_at` is refreshed, because the
registry file is rewritten unconditionally. -/
theorem C10_nat_probe_unknown_node (reg : Registry) (now : Int) (req : NATProbeRequest)
    (hne : req.nodeID ≠ "") (hmiss : ∀ n ∈ reg.nodes, n.id ≠ req.nodeID) :
    handleNATProbe reg now true req = (204, ⟨now, reg.nodes⟩) := by
  unfold handleNATProbe
  rw [if_neg hne, natProbeNodes_no_match reg.nodes req now hmiss]
  rfl

theorem C10_nat_probe_unknown_node_witness :
    handleNATProbe
        ⟨7, [{ id := "a", name := "a", pubKey := "K", vpnIP := "10.7.0.2/32", endpoint := "",
               probePort := 0, lastSeenAt := 1, status := "online", natType := "",
               publicAddr := "" }]⟩ 9 true ⟨"ghost", "symmetric", "1.2.3.4:9"⟩ =
      (204,
        ⟨9, [{ id := "a", name := "a", pubKey := "K", vpnIP := "10.7.0.2/32", endpoint := "",
               probePort := 0, lastSeenAt := 1, status := "online", natType := "",
               publicAddr := "" }]⟩) :=
  C10_nat_probe_unknown_node _ 9 _ (by decide) (by decide)

/-- C4: the keepalive for an injected direct peer is selected by the
candidate's NAT class — `symmetric` takes the short keepalive, `unknown`
the medium one, every other class the long one — each falling back to the
generic keepalive when the class-specific value is unset; with the config
defaults this gives 15, 20 and 25 seconds. -/
theorem C4_keepalive_by_class (cfg : NodeCfg) (natType : String) :
    (natType = NATTypeSymmetric → directKeepalive cfg natType = specShortKeepalive cfg) ∧
    (natType = NATTypeUnknown → directKeepalive cfg natType = specMediumKeepalive cfg) ∧
    (natType = NATTypeConeOrRestricted → directKeepalive cfg natType = specLongKeepalive cfg) ∧
    directKeepalive defaultedCfg NATTypeSymmetric = 15 ∧
    directKeepalive defaultedCfg NATTypeUnknown = 20 ∧
    directKeepalive defaultedCfg NATTypeConeOrRestricted = 25 := by
  refine ⟨?_, ?_, ?_, by decide, by decide, by decide⟩
  · rintro rfl
    simp [directKeepalive, NATTypeSymmetric, specShortKeepalive, specGenericKeepalive]
  · rintro rfl
    simp [directKeepalive, NATTypeUnknown, NATTypeSymmetric, specMediumKeepalive,
      specGenericKeepalive]
  · rintro rfl
    simp [directKeepalive, NATTypeConeOrRestricted, NATTypeSymmetric, NATTypeUnknown,
      specLongKeepalive, specGenericKeepalive]

theorem C4_keepalive_by_class_witness :
    directKeepalive defaultedCfg NATTypeSymmetric = specShortKeepalive defaultedCfg :=
  (C4_keepalive_by_class defaultedCfg NATTypeSymmetric).1 rfl

/-- C2: a Candidates response for observer `a` marks a candidate row ready
exactly when the evidence map holds success timestamps in both directions,
each at most 120 seconds old at request time. -/
theorem C2_candidates_ready_iff_mutual (reg : Registry) (dok : DirectOK) (now : Int)
    (obs : List (String × String)) (a : String) (c : PeerCandidate)
    (hc : c ∈ (handleCandidates reg dok now obs a).2) :
    c.p2pReady = true ↔ mutualFresh dok now a c.id := by
  unfold handleCandidates at hc
  by_cases ha : a = ""
  · rw [if_pos ha] at hc
    exact absurd hc (List.not_mem_nil c)
  · rw [if_neg ha] at hc
    obtain ⟨p, hp, hid, hready⟩ := mem_fillObserved hc
    rw [hready, mem_peersLocked hp, hid]
    exact p2pReadyLocked_iff_mutualFresh dok now a p.id

theorem C2_candidates_ready_iff_mutual_witness :
    ((⟨"b", "b", "K", "10.7.0.3/32", "", "", "", 0, true⟩ : PeerCandidate).p2pReady = true ↔
      mutualFresh [("a", [("b", 10)]), ("b", [("a", 20)])] 30 "a"
        (⟨"b", "b", "K", "10.7.0.3/32", "", "", "", 0, true⟩ : PeerCandidate).id) :=
  C2_candidates_ready_iff_mutual
    ⟨0, [{ id := "a", name := "a", pubKey := "KA", vpnIP := "10.7.0.2/32", endpoint := "",
           probePort := 0, lastSeenAt := 0, status := "online", natType := "", publicAddr := "" },
         { id := "b", name := "b", pubKey := "K", vpnIP := "10.7.0.3/32", endpoint := "",
           probePort := 0, lastSeenAt := 0, status := "online", natType := "", publicAddr := "" }]⟩
    [("a", [("b", 10)]), ("b", [("a", 20)])] 30 [] "a"
    ⟨"b", "b", "K", "10.7.0.3/32", "", "", "", 0, true⟩ (by decide)

/-- Net lock balance after a trace (lock +1, unlock -1), starting from a
given balance. -/
def finalBalance : Int → List REvent → Int
  | bal, [] => bal
  | bal, .lock :: r => finalBalance (bal + 1) r
  | bal, .unlock :: r => finalBalance (bal - 1) r
  | bal, .respond _ :: r => finalBalance bal r

/-- Number of responses written while the registry lock is held. -/
def respondsHeldCount : Int → List REvent → Nat
  | _, [] => 0
  | bal, .lock :: r => respondsHeldCount (bal + 1) r
  | bal, .unlock :: r => respondsHeldCount (bal - 1) r
  | bal, .respond _ :: r => (if 0 < bal then 1 else 0) + respondsHeldCount bal r

/-- C1 counterexample: on an empty registry with prefix `10.7.0.0/24`, a
Register call with a fresh name, a non-empty key and no preset overlay
succeeds — but the assigned overlay is `10.7.0.1/32`, not the claimed
`10.7.0.2/32`: the allocator starts at host offset 1 and reserves nothing
for the hub. -/
theorem C1_counterexample :
    (handleRegister ⟨"10.7.0.0/24", false, true, true, []⟩ ⟨0, []⟩ [] 100
        ⟨"a", "K1", "", "", "", "", 0⟩).status = 200 ∧
    (handleRegister ⟨"10.7.0.0/24", false, true, true, []⟩ ⟨0, []⟩ [] 100
        ⟨"a", "K1", "", "", "", "", 0⟩).resp = some ⟨"a", "10.7.0.1/32", []⟩ ∧
    ("10.7.0.1/32" : String) ≠ "10.7.0.2/32" := by
  decide

/-- C1 (amended): starting from an empty registry with configured overlay
prefix `10.7.0.0/24`, a Register call with a fresh name, a non-empty key
and no preset overlay succeeds with status 200, returns the assigned
overlay `10.7.0.1/32` (the first host after the network address — nothing
is reserved for the hub) and an empty candidate list. -/
theorem C1_register_first_allocation (name key : String) (obs : List (String × String))
    (dok : DirectOK) (now : Int) (hn : name ≠ "") (hk : key ≠ "") :
    (handleRegister ⟨"10.7.0.0/24", false, true, true, obs⟩ ⟨0, []⟩ dok now
        ⟨name, key, "", "", "", "", 0⟩).status = 200 ∧
    (handleRegister ⟨"10.7.0.0/24", false, true, true, obs⟩ ⟨0, []⟩ dok now
        ⟨name, key, "", "", "", "", 0⟩).resp = some ⟨name, "10.7.0.1/32", []⟩ := by
  have halloc : allocateVPNIP "10.7.0.0/24" ([] : List NodeInfo) = some "10.7.0.1/32" := by
    decide
  unfold handleRegister
  rw [if_neg (by simp [hn, hk])]
  simp only [halloc, upsertNode, peersLocked, fillObserved]
  simp

theorem C1_register_first_allocation_witness :
    (handleRegister ⟨"10.7.0.0/24", false, true, true, []⟩ ⟨0, []⟩ [] 7
        ⟨"a", "K1", "", "", "", "", 0⟩).status = 200 ∧
    (handleRegister ⟨"10.7.0.0/24", false, true, true, []⟩ ⟨0, []⟩ [] 7
        ⟨"a", "K1", "", "", "", "", 0⟩).resp = some ⟨"a", "10.7.0.1/32", []⟩ :=
  C1_register_first_allocation "a" "K1" [] [] 7 (by decide) (by decide)

/-- C7 counterexample: when allocation fails after the lock is taken
(prefix `"not-a-cidr"`), the 400 error response is written while the
registry lock is still held — the deferred unlock only runs afterwards —
so "no Register response is produced while the registry lock is held" is
false on this input. -/
theorem C7_counterexample :
    respondsHeldCount 0 ((handleRegister ⟨"not-a-cidr", false, true, true, []⟩ ⟨0, []⟩ [] 0
        ⟨"node-a", "pub", "", "", "", "", 0⟩).events) = 1 ∧
    (handleRegister ⟨"not-a-cidr", false, true, true, []⟩ ⟨0, []⟩ [] 0
        ⟨"node-a", "pub", "", "", "", "", 0⟩).events =
      [.lock, .respond 400, .unlock] := by
  decide

/-- C7 (amended): the handler never terminates still holding the registry
lock (the deferred unlock guarantees the deadlock-freedom property the
regression test checks), and whenever the request does not hit the
allocation-failure path, every response is written after the lock has been
released.  On the allocation-failure path the error response is written
under the lock and the deferred unlock runs after it. -/
theorem C7_lock_released_by_return (env : Env) (reg : Registry) (dok : DirectOK)
    (now : Int) (req : RegisterRequest) :
    finalBalance 0 (handleRegister env reg dok now req).events ≤ 0 ∧
    ((req.vpnIP = "" → allocateVPNIP env.vpnCIDR reg.nodes ≠ none) →
      respondsHeldCount 0 (handleRegister env reg dok now req).events = 0) := by
  have t400 : finalBalance 0 [REvent.respond 400] ≤ 0 ∧
      respondsHeldCount 0 [REvent.respond 400] = 0 := by decide
  have tOK : finalBalance 0 [REvent.lock, REvent.unlock, REvent.respond 200] ≤ 0 ∧
      respondsHeldCount 0 [REvent.lock, REvent.unlock, REvent.respond 200] = 0 := by decide
  have tApply : finalBalance 0 [REvent.lock, REvent.unlock, REvent.respond 500] ≤ 0 ∧
      respondsHeldCount 0 [REvent.lock, REvent.unlock, REvent.respond 500] = 0 := by decide
  have tSave :
      finalBalance 0 [REvent.lock, REvent.unlock, REvent.respond 500, REvent.unlock] ≤ 0 ∧
      respondsHeldCount 0 [REvent.lock, REvent.unlock, REvent.respond 500, REvent.unlock] = 0 := by
    decide
  unfold handleRegister
  by_cases hv : req.name = "" ∨ req.pubKey = ""
  · rw [if_pos hv]
    exact ⟨t400.1, fun _ => t400.2⟩
  · rw [if_neg hv]
    by_cases hvp : req.vpnIP = ""
    · simp only [if_pos hvp]
      cases halloc : allocateVPNIP env.vpnCIDR reg.nodes with
      | none =>
        exact ⟨(by decide : finalBalance 0 [REvent.lock, REvent.respond 400, REvent.unlock] ≤ 0),
          fun h => absurd rfl (h hvp)⟩
      | some ip =>
        cases hs : env.saveOk with
        | false => exact ⟨tSave.1, fun _ => tSave.2⟩
        | true =>
          cases hw : env.wgApply && !env.applyOk with
          | false => exact ⟨tOK.1, fun _ => tOK.2⟩
          | true => exact ⟨tApply.1, fun _ => tApply.2⟩
    · simp only [if_neg hvp]
      cases hs : env.saveOk with
      | false => exact ⟨tSave.1, fun _ => tSave.2⟩
      | true =>
        cases hw : env.wgApply && !env.applyOk with
        | false => exact ⟨tOK.1, fun _ => tOK.2⟩
        | true => exact ⟨tApply.1, fun _ => tApply.2⟩

theorem C7_lock_released_by_return_witness :
    finalBalance 0 (handleRegister ⟨"10.7.0.0/24", false, true, true, []⟩ ⟨0, []⟩ [] 0
        ⟨"a", "K", "", "", "", "", 0⟩).events ≤ 0 ∧
    respondsHeldCount 0 (handleRegister ⟨"10.7.0.0/24", false, true, true, []⟩ ⟨0, []⟩ [] 0
        ⟨"a", "K", "", "", "", "", 0⟩).events = 0 :=
  ⟨(C7_lock_released_by_return _ _ _ _ _).1,
    (C7_lock_released_by_return _ _ _ _ _).2 (fun _ => by decide)⟩

theorem lookupA_of_nodup_mem {β : Type} {m : List (String × β)} {k : String} {v : β}
    (hnd : (m.map Prod.fst).Nodup) (hm : (k, v) ∈ m) : lookupA m k = some v := by
  induction m with
  | nil => cases hm
  | cons kv rest ih =>
    obtain ⟨k0, v0⟩ := kv
    rw [List.map_cons, List.nodup_cons] at hnd
    rcases List.mem_cons.mp hm with h | h
    · cases h
      simp [lookupA]
    · have hk : k0 ≠ k := by
        intro he
        subst he
        exact hnd.1 (List.mem_map.mpr ⟨(k0, v), h, rfl⟩)
      simp only [lookupA, if_neg hk]
      exact ih hnd.2 h

theorem peersEqualB_refl {D : List (String × WGPeer)} (hnd : (D.map Prod.fst).Nodup) :
    peersEqualB D D = true := by
  unfold peersEqualB
  rw [Bool.and_eq_true, List.all_eq_true]
  refine ⟨by simp, fun kv hkv => ?_⟩
  rw [lookupA_of_nodup_mem hnd (by simpa using hkv)]
  simp [wgPeerEqB]

theorem peersEqualB_false_of_endpoint_ne {D D' : List (String × WGPeer)} {k : String}
    {p q : WGPeer} (hD : lookupA D k = some p) (hD' : lookupA D' k = some q)
    (hne : q.endpoint ≠ p.endpoint) : peersEqualB D D' = false := by
  cases hb : peersEqualB D D' with
  | false => rfl
  | true =>
    exfalso
    unfold peersEqualB at hb
    rw [Bool.and_eq_true, List.all_eq_true] at hb
    have h2 := hb.2 (k, p) (lookupA_mem hD)
    rw [hD'] at h2
    unfold wgPeerEqB at h2
    simp only [Bool.and_eq_true, beq_iff_eq] at h2
    exact hne h2.1.1.2.symm

/-- C5: if two consecutive reconcile ticks build the same desired peer set
(applies succeeding), the second tick issues zero apply calls; and if the
last-applied set and the new desired set differ in exactly one entry's
endpoint, the tick issues exactly one apply call whose payload carries that
entry with its new endpoint. -/
theorem C5_reconciler_idempotence_and_delta :
    (∀ (serverSet : Bool) (active D : List (String × WGPeer)),
      (D.map Prod.fst).Nodup →
      (reconcileTick serverSet true (reconcileTick serverSet true active D).active D).applies =
        []) ∧
    (∀ (D D' : List (String × WGPeer)) (k : String) (p q : WGPeer),
      lookupA D k = some p → lookupA D' k = some q → q.endpoint ≠ p.endpoint →
      (reconcileTick true true D D').applies = [peersFromMap D'] ∧ q ∈ peersFromMap D') := by
  constructor
  · intro serverSet active D hnd
    cases serverSet with
    | false => simp [reconcileTick]
    | true =>
      by_cases he : peersEqualB active D = true
      · simp [reconcileTick, he]
      · have he' : peersEqualB active D = false := by
          cases hb : peersEqualB active D with
          | false => rfl
          | true => exact absurd hb he
        simp [reconcileTick, he', peersEqualB_refl hnd]
  · intro D D' k p q hD hD' hne
    have hf := peersEqualB_false_of_endpoint_ne hD hD' hne
    constructor
    · simp [reconcileTick, hf]
    · exact List.mem_map_of_mem Prod.snd (lookupA_mem hD')

theorem C5_reconciler_idempotence_and_delta_witness :
    (reconcileTick true true
        (reconcileTick true true []
          [("b", ⟨"K_b", "198.51.100.2:51820", ["10.7.0.3/32"], 25⟩)]).active
        [("b", ⟨"K_b", "198.51.100.2:51820", ["10.7.0.3/32"], 25⟩)]).applies = [] ∧
    ((reconcileTick true true [("b", ⟨"K_b", "198.51.100.2:51820", ["10.7.0.3/32"], 25⟩)]
        [("b", ⟨"K_b", "198.51.100.9:51820", ["10.7.0.3/32"], 25⟩)]).applies =
      [peersFromMap [("b", ⟨"K_b", "198.51.100.9:51820", ["10.7.0.3/32"], 25⟩)]] ∧
      (⟨"K_b", "198.51.100.9:51820", ["10.7.0.3/32"], 25⟩ : WGPeer) ∈
        peersFromMap [("b", ⟨"K_b", "198.51.100.9:51820", ["10.7.0.3/32"], 25⟩)]) :=
  ⟨C5_reconciler_idempotence_and_delta.1 true []
      [("b", ⟨"K_b", "198.51.100.2:51820", ["10.7.0.3/32"], 25⟩)] (by decide),
    C5_reconciler_idempotence_and_delta.2
      [("b", ⟨"K_b", "198.51.100.2:51820", ["10.7.0.3/32"], 25⟩)]
      [("b", ⟨"K_b", "198.51.100.9:51820", ["10.7.0.3/32"], 25⟩)] "b"
      ⟨"K_b", "198.51.100.2:51820", ["10.7.0.3/32"], 25⟩
      ⟨"K_b", "198.51.100.9:51820", ["10.7.0.3/32"], 25⟩ (by decide) (by decide) (by decide)⟩

/-! ## C3 development: desired-set invariants -/

/-- The WireGuard peer entry the agent builds from a candidate. -/
def mkDirectPeer (cfg : NodeCfg) (c : PeerCandidate) : WGPeer :=
  ⟨c.pubKey, c.endpoint, [normalizeHostIP c.vpnIP], directKeepalive cfg c.natType⟩

/-- A candidate claims overlay address `a` in a cycle when it is ready and
its normalized overlay equals `a` (non-empty). -/
def claimsAddr (c : PeerCandidate) (a : String) : Prop :=
  c.p2pReady = true ∧ normalizeHostIP c.vpnIP = a ∧ a ≠ ""

/-- Normal form of one candidate step: on a ready candidate with a
non-empty overlay the ownership map decides between skip and (claim and
maybe inject); otherwise nothing changes. -/
theorem desiredStep_eq (cfg : NodeCfg) (st : DesiredState) (c : PeerCandidate) :
    desiredStep cfg st c =
      if c.p2pReady = true ∧ normalizeHostIP c.vpnIP ≠ "" then
        match lookupA st.owner (normalizeHostIP c.vpnIP) with
        | some prev =>
          if prev = c.id then
            ⟨(if c.pubKey ≠ "" ∧ c.endpoint ≠ "" then
                upsertA st.desired c.id (mkDirectPeer cfg c)
              else st.desired),
              upsertA st.owner (normalizeHostIP c.vpnIP) c.id⟩
          else ⟨st.desired, st.owner⟩
        | none =>
          ⟨(if c.pubKey ≠ "" ∧ c.endpoint ≠ "" then
              upsertA st.desired c.id (mkDirectPeer cfg c)
            else st.desired),
            upsertA st.owner (normalizeHostIP c.vpnIP) c.id⟩
      else ⟨st.desired, st.owner⟩ := by
  unfold desiredStep mkDirectPeer
  dsimp only
  by_cases hcl : c.p2pReady = true ∧ normalizeHostIP c.vpnIP ≠ ""
  · rw [if_pos hcl, if_pos hcl]
    cases hlo : lookupA st.owner (normalizeHostIP c.vpnIP) with
    | none =>
      dsimp only
      by_cases hins : c.pubKey ≠ "" ∧ c.endpoint ≠ ""
      · rw [if_pos ⟨rfl, hcl.2, hins.1, hins.2⟩, if_pos hins]
      · rw [if_neg fun h => hins ⟨h.2.2.1, h.2.2.2⟩, if_neg hins]
    | some prev =>
      dsimp only
      by_cases hp : prev = c.id
      · rw [if_neg (show ¬ (prev ≠ c.id) from fun h => h hp), if_pos hp]
        dsimp only
        by_cases hins : c.pubKey ≠ "" ∧ c.endpoint ≠ ""
        · rw [if_pos ⟨rfl, hcl.2, hins.1, hins.2⟩, if_pos hins]
        · rw [if_neg fun h => hins ⟨h.2.2.1, h.2.2.2⟩, if_neg hins]
      · rw [if_pos hp, if_neg hp]
        dsimp only
        rw [if_neg (by rintro ⟨h1, -⟩; cases h1)]
  · rw [if_neg hcl, if_neg hcl]
    rw [if_neg (by rintro ⟨h1, h2, -⟩; exact hcl ⟨h1, h2⟩)]

/-- An existing ownership binding survives any later candidate step. -/
theorem step_owner_mono (cfg : NodeCfg) (st : DesiredState) (c : PeerCandidate)
    {x v : String} (h : lookupA st.owner x = some v) :
    lookupA (desiredStep cfg st c).owner x = some v := by
  rw [desiredStep_eq]
  by_cases hcl : c.p2pReady = true ∧ normalizeHostIP c.vpnIP ≠ ""
  · rw [if_pos hcl]
    cases hlo : lookupA st.owner (normalizeHostIP c.vpnIP) with
    | none =>
      have hx : x ≠ normalizeHostIP c.vpnIP := by
        intro he
        rw [he, hlo] at h
        cases h
      dsimp only
      rw [lookupA_upsertA_ne _ _ _ _ hx]
      exact h
    | some prev =>
      dsimp only
      by_cases hp : prev = c.id
      · rw [if_pos hp]
        dsimp only
        by_cases hx : x = normalizeHostIP c.vpnIP
        · subst hx
          rw [hlo] at h
          rw [lookupA_upsertA_self]
          rw [← h]
          exact congrArg some hp.symm
        · rw [lookupA_upsertA_ne _ _ _ _ hx]
          exact h
      · rw [if_neg hp]
        exact h
  · rw [if_neg hcl]
    exact h

/-- Ownership invariant: every desired entry's single allowed address is
owned (in `allowedOwner`) by that entry's key. -/
def ownerInv (st : DesiredState) : Prop :=
  ∀ id p, lookupA st.desired id = some p →
    ∃ a, p.allowedIPs = [a] ∧ lookupA st.owner a = some id

theorem step_ownerInv (cfg : NodeCfg) (st : DesiredState) (c : PeerCandidate)
    (h : ownerInv st) : ownerInv (desiredStep cfg st c) := by
  have hkeep : ∀ id p, lookupA st.desired id = some p →
      ∃ a, p.allowedIPs = [a] ∧ lookupA (desiredStep cfg st c).owner a = some id := by
    intro id p hid
    obtain ⟨a, ha, ho⟩ := h id p hid
    exact ⟨a, ha, step_owner_mono cfg st c ho⟩
  intro id p hid
  rw [desiredStep_eq] at hid
  by_cases hcl : c.p2pReady = true ∧ normalizeHostIP c.vpnIP ≠ ""
  · rw [if_pos hcl] at hid
    cases hlo : lookupA st.owner (normalizeHostIP c.vpnIP) with
    | none =>
      rw [hlo] at hid
      dsimp only at hid
      by_cases hins : c.pubKey ≠ "" ∧ c.endpoint ≠ ""
      · rw [if_pos hins] at hid
        by_cases hide : id = c.id
        · subst hide
          rw [lookupA_upsertA_self] at hid
          cases hid
          refine ⟨normalizeHostIP c.vpnIP, rfl, ?_⟩
          rw [desiredStep_eq, if_pos hcl, hlo]
          dsimp only
          exact lookupA_upsertA_self _ _ _
        · rw [lookupA_upsertA_ne _ _ _ _ hide] at hid
          exact hkeep id p hid
      · rw [if_neg hins] at hid
        exact hkeep id p hid
    | some prev =>
      rw [hlo] at hid
      dsimp only at hid
      by_cases hp : prev = c.id
      · rw [if_pos hp] at hid
        by_cases hins : c.pubKey ≠ "" ∧ c.endpoint ≠ ""
        · rw [if_pos hins] at hid
          by_cases hide : id = c.id
          · subst hide
            rw [lookupA_upsertA_self] at hid
            cases hid
            refine ⟨normalizeHostIP c.vpnIP, rfl, ?_⟩
            rw [desiredStep_eq, if_pos hcl, hlo]
            dsimp only
            rw [if_pos hp]
            dsimp only
            exact lookupA_upsertA_self _ _ _
          · rw [lookupA_upsertA_ne _ _ _ _ hide] at hid
            exact hkeep id p hid
        · rw [if_neg hins] at hid
          exact hkeep id p hid
      · rw [if_neg hp] at hid
        exact hkeep id p hid
  · rw [if_neg hcl] at hid
    exact hkeep id p hid

theorem foldl_ownerInv (cfg : NodeCfg) (cands : List PeerCandidate) (st : DesiredState)
    (h : ownerInv st) : ownerInv (cands.foldl (desiredStep cfg) st) := by
  induction cands generalizing st with
  | nil => exact h
  | cons c rest ih => exact ih _ (step_ownerInv cfg st c h)

/-- An entry of the desired map comes either from the initial state or from
one candidate that passed every injection guard. -/
theorem step_provenance (cfg : NodeCfg) (st : DesiredState) (c : PeerCandidate)
    {id : String} {p : WGPeer}
    (hid : lookupA (desiredStep cfg st c).desired id = some p) :
    lookupA st.desired id = some p ∨
      (c.id = id ∧ c.p2pReady = true ∧ c.pubKey ≠ "" ∧ c.endpoint ≠ "" ∧ c.vpnIP ≠ "" ∧
        p = mkDirectPeer cfg c) := by
  have hvp : normalizeHostIP c.vpnIP ≠ "" → c.vpnIP ≠ "" := by
    intro hne he
    rw [he] at hne
    exact hne rfl
  rw [desiredStep_eq] at hid
  by_cases hcl : c.p2pReady = true ∧ normalizeHostIP c.vpnIP ≠ ""
  · rw [if_pos hcl] at hid
    cases hlo : lookupA st.owner (normalizeHostIP c.vpnIP) with
    | none =>
      rw [hlo] at hid
      dsimp only at hid
      by_cases hins : c.pubKey ≠ "" ∧ c.endpoint ≠ ""
      · rw [if_pos hins] at hid
        by_cases hide : id = c.id
        · subst hide
          rw [lookupA_upsertA_self] at hid
          cases hid
          exact Or.inr ⟨rfl, hcl.1, hins.1, hins.2, hvp hcl.2, rfl⟩
        · rw [lookupA_upsertA_ne _ _ _ _ hide] at hid
          exact Or.inl hid
      · rw [if_neg hins] at hid
        exact Or.inl hid
    | some prev =>
      rw [hlo] at hid
      dsimp only at hid
      by_cases hp : prev = c.id
      · rw [if_pos hp] at hid
        by_cases hins : c.pubKey ≠ "" ∧ c.endpoint ≠ ""
        · rw [if_pos hins] at hid
          by_cases hide : id = c.id
          · subst hide
            rw [lookupA_upsertA_self] at hid
            cases hid
            exact Or.inr ⟨rfl, hcl.1, hins.1, hins.2, hvp hcl.2, rfl⟩
          · rw [lookupA_upsertA_ne _ _ _ _ hide] at hid
            exact Or.inl hid
        · rw [if_neg hins] at hid
          exact Or.inl hid
      · rw [if_neg hp] at hid
        exact Or.inl hid
  · rw [if_neg hcl] at hid
    exact Or.inl hid

theorem foldl_provenance (cfg : NodeCfg) (cands : List PeerCandidate) (st : DesiredState)
    {id : String} {p : WGPeer}
    (hid : lookupA (cands.foldl (desiredStep cfg) st).desired id = some p) :
    lookupA st.desired id = some p ∨
      ∃ c ∈ cands, c.id = id ∧ c.p2pReady = true ∧ c.pubKey ≠ "" ∧ c.endpoint ≠ "" ∧
        c.vpnIP ≠ "" ∧ p = mkDirectPeer cfg c := by
  induction cands generalizing st with
  | nil => exact Or.inl hid
  | cons c rest ih =>
    rcases ih (desiredStep cfg st c) hid with h | ⟨c', hc', hprops⟩
    · rcases step_provenance cfg st c h with h' | h'
      · exact Or.inl h'
      · exact Or.inr ⟨c, List.mem_cons_self c rest, h'⟩
    · exact Or.inr ⟨c', List.mem_cons_of_mem c hc', hprops⟩

/-- An unclaimed address stays unclaimed through candidates that do not
claim it. -/
theorem step_owner_none (cfg : NodeCfg) (st : DesiredState) (c : PeerCandidate)
    {a : String} (hnc : ¬ claimsAddr c a) (h : lookupA st.owner a = none) :
    lookupA (desiredStep cfg st c).owner a = none := by
  rw [desiredStep_eq]
  by_cases hcl : c.p2pReady = true ∧ normalizeHostIP c.vpnIP ≠ ""
  · rw [if_pos hcl]
    have hne : a ≠ normalizeHostIP c.vpnIP := by
      intro he
      exact hnc ⟨hcl.1, by rw [he], by rw [he]; exact hcl.2⟩
    cases hlo : lookupA st.owner (normalizeHostIP c.vpnIP) with
    | none =>
      dsimp only
      rw [lookupA_upsertA_ne _ _ _ _ hne]
      exact h
    | some prev =>
      dsimp only
      by_cases hp : prev = c.id
      · rw [if_pos hp]
        dsimp only
        rw [lookupA_upsertA_ne _ _ _ _ hne]
        exact h
      · rw [if_neg hp]
        exact h
  · rw [if_neg hcl]
    exact h

theorem foldl_owner_none (cfg : NodeCfg) (cands : List PeerCandidate) (st : DesiredState)
    {a : String} (hnc : ∀ c ∈ cands, ¬ claimsAddr c a) (h : lookupA st.owner a = none) :
    lookupA (cands.foldl (desiredStep cfg) st).owner a = none := by
  induction cands generalizing st with
  | nil => exact h
  | cons c rest ih =>
    exact ih _ (fun c' hc' => hnc c' (List.mem_cons_of_mem c hc'))
      (step_owner_none cfg st c (hnc c (List.mem_cons_self c rest)) h)

/-- A desired entry survives steps of candidates with a different id. -/
theorem step_desired_keep (cfg : NodeCfg) (st : DesiredState) (c : PeerCandidate)
    {id : String} {p : WGPeer} (hne : c.id ≠ id) (h : lookupA st.desired id = some p) :
    lookupA (desiredStep cfg st c).desired id = some p := by
  rw [desiredStep_eq]
  have hkeep : ∀ b : Prop, ∀ inst : Decidable b,
      lookupA (if b then upsertA st.desired c.id (mkDirectPeer cfg c) else st.desired) id =
        some p := by
    intro b inst
    by_cases hb : b
    · rw [if_pos hb, lookupA_upsertA_ne _ _ _ _ (Ne.symm hne)]
      exact h
    · rw [if_neg hb]
      exact h
  by_cases hcl : c.p2pReady = true ∧ normalizeHostIP c.vpnIP ≠ ""
  · rw [if_pos hcl]
    cases hlo : lookupA st.owner (normalizeHostIP c.vpnIP) with
    | none =>
      dsimp only
      exact hkeep _ _
    | some prev =>
      dsimp only
      by_cases hp : prev = c.id
      · rw [if_pos hp]
        dsimp only
        exact hkeep _ _
      · rw [if_neg hp]
        exact h
  · rw [if_neg hcl]
    exact h

theorem foldl_desired_keep (cfg : NodeCfg) (cands : List PeerCandidate) (st : DesiredState)
    {id : String} {p : WGPeer} (hne : ∀ c ∈ cands, c.id ≠ id)
    (h : lookupA st.desired id = some p) :
    lookupA (cands.foldl (desiredStep cfg) st).desired id = some p := by
  induction cands generalizing st with
  | nil => exact h
  | cons c rest ih =>
    exact ih _ (fun c' hc' => hne c' (List.mem_cons_of_mem c hc'))
      (step_desired_keep cfg st c (hne c (List.mem_cons_self c rest)) h)

/-- A candidate that finds its address unclaimed and passes the guards puts
its entry into the desired map. -/
theorem step_injects (cfg : NodeCfg) (st : DesiredState) (c : PeerCandidate)
    (hready : c.p2pReady = true) (hip : normalizeHostIP c.vpnIP ≠ "")
    (hpub : c.pubKey ≠ "") (hep : c.endpoint ≠ "")
    (hfree : lookupA st.owner (normalizeHostIP c.vpnIP) = none) :
    lookupA (desiredStep cfg st c).desired c.id = some (mkDirectPeer cfg c) := by
  rw [desiredStep_eq, if_pos ⟨hready, hip⟩, hfree]
  dsimp only
  rw [if_pos ⟨hpub, hep⟩]
  exact lookupA_upsertA_self _ _ _

/-- C3: on every reconcile tick the desired peer set holds at most one
entry per overlay host address, every entry comes from a candidate with
`p2p_ready`, a non-empty endpoint, key and overlay, and the first candidate
to claim an address (when injectable and its id is not reused later) is the
one whose entry survives for the cycle. -/
theorem C3_desired_set_invariants (cfg : NodeCfg) (cands : List PeerCandidate) :
    (∀ id1 id2 p1 p2,
      lookupA (buildDesired cfg cands).desired id1 = some p1 →
      lookupA (buildDesired cfg cands).desired id2 = some p2 →
      id1 ≠ id2 → p1.allowedIPs ≠ p2.allowedIPs) ∧
    (∀ id p, lookupA (buildDesired cfg cands).desired id = some p →
      ∃ c ∈ cands, c.id = id ∧ c.p2pReady = true ∧ c.pubKey ≠ "" ∧ c.endpoint ≠ "" ∧
        c.vpnIP ≠ "" ∧ p = mkDirectPeer cfg c) ∧
    (∀ (pre post : List PeerCandidate) (c : PeerCandidate),
      cands = pre ++ c :: post →
      (∀ c' ∈ pre, ¬ claimsAddr c' (normalizeHostIP c.vpnIP)) →
      (∀ c'' ∈ post, c''.id ≠ c.id) →
      c.p2pReady = true → normalizeHostIP c.vpnIP ≠ "" → c.pubKey ≠ "" → c.endpoint ≠ "" →
      lookupA (buildDesired cfg cands).desired c.id = some (mkDirectPeer cfg c)) := by
  refine ⟨?_, ?_, ?_⟩
  · intro id1 id2 p1 p2 h1 h2 hne heq
    have hinv : ownerInv (buildDesired cfg cands) :=
      foldl_ownerInv cfg cands ⟨[], []⟩ (by intro id p h; cases h)
    obtain ⟨a1, ha1, ho1⟩ := hinv id1 p1 h1
    obtain ⟨a2, ha2, ho2⟩ := hinv id2 p2 h2
    rw [ha1, ha2] at heq
    cases heq
    rw [ho1] at ho2
    cases ho2
    exact hne rfl
  · intro id p h
    rcases foldl_provenance cfg cands ⟨[], []⟩ h with h' | h'
    · cases h'
    · exact h'
  · intro pre post c hc hnc hpost hready hip hpub hep
    subst hc
    unfold buildDesired
    rw [List.foldl_append, List.foldl_cons]
    refine foldl_desired_keep cfg post _ hpost ?_
    refine step_injects cfg _ c hready hip hpub hep ?_
    exact foldl_owner_none cfg pre ⟨[], []⟩ hnc rfl

theorem C3_desired_set_invariants_witness :
    ∃ c ∈ [(⟨"b", "b", "K_b", "10.7.0.3/32", "198.51.100.2:51820", "", "", 0, true⟩ :
        PeerCandidate)],
      c.id = "b" ∧ c.p2pReady = true ∧ c.pubKey ≠ "" ∧ c.endpoint ≠ "" ∧ c.vpnIP ≠ "" ∧
        mkDirectPeer defaultedCfg
            ⟨"b", "b", "K_b", "10.7.0.3/32", "198.51.100.2:51820", "", "", 0, true⟩ =
          mkDirectPeer defaultedCfg c :=
  (C3_desired_set_invariants defaultedCfg
      [⟨"b", "b", "K_b", "10.7.0.3/32", "198.51.100.2:51820", "", "", 0, true⟩]).2.1
    "b" (mkDirectPeer defaultedCfg
      ⟨"b", "b", "K_b", "10.7.0.3/32", "198.51.100.2:51820", "", "", 0, true⟩)
    (by decide)

/-! ## C6 development: text round trips for allocated addresses -/

set_option maxRecDepth 4000 in
theorem octet_roundtrip : ∀ n : Nat, n < 256 → parseOctet (octChars n) = some n := by decide

set_option maxRecDepth 4000 in
theorem octChars_no_dot : ∀ n : Nat, n < 256 → '.' ∉ octChars n := by decide

set_option maxRecDepth 4000 in
theorem octChars_no_slash : ∀ n : Nat, n < 256 → '/' ∉ octChars n := by decide

theorem splitChar_no_sep {c : Char} {l : List Char} (h : c ∉ l) : splitChar c l = [l] := by
  induction l with
  | nil => rfl
  | cons x xs ih =>
    have hx : x ≠ c := fun he => h (he ▸ List.mem_cons_self x xs)
    unfold splitChar
    rw [if_neg hx, ih fun hc => h (List.mem_cons_of_mem x hc)]

theorem splitChar_append {c : Char} {l r : List Char} (h : c ∉ l) :
    splitChar c (l ++ c :: r) = l :: splitChar c r := by
  induction l with
  | nil => simp [splitChar]
  | cons x xs ih =>
    have hx : x ≠ c := fun he => h (he ▸ List.mem_cons_self x xs)
    rw [List.cons_append, splitChar, if_neg hx, ih fun hc => h (List.mem_cons_of_mem x hc)]

theorem ipChars_split (a : Nat) :
    splitChar '.' (ipChars a) =
      [octChars (a / 16777216 % 256), octChars (a / 65536 % 256),
        octChars (a / 256 % 256), octChars (a % 256)] := by
  have h1 := octChars_no_dot (a / 16777216 % 256) (Nat.mod_lt _ (by norm_num))
  have h2 := octChars_no_dot (a / 65536 % 256) (Nat.mod_lt _ (by norm_num))
  have h3 := octChars_no_dot (a / 256 % 256) (Nat.mod_lt _ (by norm_num))
  have h4 := octChars_no_dot (a % 256) (Nat.mod_lt _ (by norm_num))
  unfold ipChars
  rw [splitChar_append h1, splitChar_append h2, splitChar_append h3, splitChar_no_sep h4]

theorem parseIPv4_roundtrip (a : Nat) (ha : a < 4294967296) :
    parseIPv4 (ipChars a) = some a := by
  unfold parseIPv4
  rw [ipChars_split a]
  dsimp only
  rw [octet_roundtrip _ (Nat.mod_lt _ (by norm_num)),
    octet_roundtrip _ (Nat.mod_lt _ (by norm_num)),
    octet_roundtrip _ (Nat.mod_lt _ (by norm_num)),
    octet_roundtrip _ (Nat.mod_lt _ (by norm_num))]
  dsimp only
  exact congrArg some (by omega)

theorem ipChars_no_slash (a : Nat) : '/' ∉ ipChars a := by
  intro h
  simp only [ipChars, List.mem_append, List.mem_cons] at h
  rcases h with h | h | h | h | h | h | h
  · exact octChars_no_slash _ (Nat.mod_lt _ (by norm_num)) h
  · cases h
  · exact octChars_no_slash _ (Nat.mod_lt _ (by norm_num)) h
  · cases h
  · exact octChars_no_slash _ (Nat.mod_lt _ (by norm_num)) h
  · cases h
  · exact octChars_no_slash _ (Nat.mod_lt _ (by norm_num)) h

theorem firstIdxOfC_append_cons {c : Char} {l r : List Char} (h : c ∉ l) :
    firstIdxOfC c (l ++ c :: r) = some l.length := by
  induction l with
  | nil => simp [firstIdxOfC]
  | cons x xs ih =>
    have hx : x ≠ c := fun he => h (he ▸ List.mem_cons_self x xs)
    show firstIdxOfC c (x :: (xs ++ c :: r)) = some (xs.length + 1)
    unfold firstIdxOfC
    rw [if_neg hx, ih fun hc => h (List.mem_cons_of_mem x hc)]
    rfl

theorem lastIdxOfC_append_cons {c : Char} {l r : List Char} (hl : c ∉ l) (hr : c ∉ r) :
    lastIdxOfC c (l ++ c :: r) = some l.length := by
  unfold lastIdxOfC
  have hrev : (l ++ c :: r).reverse = r.reverse ++ c :: l.reverse := by
    simp
  rw [hrev, firstIdxOfC_append_cons (fun hc => hr (List.mem_reverse.mp hc))]
  simp only [Option.map_some']
  congr 1
  simp only [List.length_append, List.length_cons, List.length_reverse]
  omega

theorem take_append_self {α : Type} (l r : List α) : (l ++ r).take l.length = l :=
  List.take_left l r

theorem drop_append_cons {α : Type} (l : List α) (x : α) (r : List α) :
    (l ++ x :: r).drop (l.length + 1) = r := by
  induction l with
  | nil => simp
  | cons y ys ih => simpa using ih

theorem parsePfx_ipCIDR32 (a : Nat) (ha : a < 4294967296) :
    parsePfx (ipCIDR32 a) = some (a, 32) := by
  have hdata : (ipCIDR32 a).data = ipChars a ++ '/' :: ['3', '2'] := rfl
  unfold parsePfx
  rw [hdata, lastIdxOfC_append_cons (ipChars_no_slash a) (by decide)]
  dsimp only
  rw [take_append_self, drop_append_cons, parseIPv4_roundtrip a ha,
    (by decide : parseBits ['3', '2'] = some 32)]

theorem parseUsedAddr_roundtrip (a : Nat) (ha : a < 4294967296) :
    parseUsedAddr (ipCIDR32 a) = some a := by
  unfold parseUsedAddr
  rw [parsePfx_ipCIDR32 a ha]

theorem ipCIDR32_ne_empty (a : Nat) : ipCIDR32 a ≠ "" := by
  intro h
  have hd : ipChars a ++ ['/', '3', '2'] = [] := congrArg String.data h
  simpa using hd

theorem ipCIDR32_inj {a b : Nat} (ha : a < 4294967296) (hb : b < 4294967296)
    (h : ipCIDR32 a = ipCIDR32 b) : a = b := by
  have := parseUsedAddr_roundtrip a ha
  rw [h, parseUsedAddr_roundtrip b hb] at this
  exact (Option.some.injEq _ _).mp this.symm

theorem parseOctet_le {l : List Char} {v : Nat} (h : parseOctet l = some v) : v ≤ 255 := by
  unfold parseOctet at h
  split at h
  · cases h
  · split at h
    · cases h
    · split at h
      · cases h
      · split at h
        · cases h
        · split at h
          · cases h
          · cases h
            omega

theorem parseIPv4_lt {l : List Char} {v : Nat} (h : parseIPv4 l = some v) :
    v < 4294967296 := by
  unfold parseIPv4 at h
  split at h
  · split at h
    · cases h
      rename_i h1 h2 h3 h4
      have b1 := parseOctet_le h1
      have b2 := parseOctet_le h2
      have b3 := parseOctet_le h3
      have b4 := parseOctet_le h4
      omega
    · cases h
  · cases h

theorem parseBits_le {l : List Char} {v : Nat} (h : parseBits l = some v) : v ≤ 32 := by
  unfold parseBits at h
  split at h
  · cases h
  · split at h
    · cases h
    · split at h
      · cases h
      · split at h
        · cases h
        · cases h
          omega

theorem parsePfx_bounds {s : String} {a ones : Nat} (h : parsePfx s = some (a, ones)) :
    a < 4294967296 ∧ ones ≤ 32 := by
  unfold parsePfx at h
  split at h
  · cases h
  · split at h
    · rename_i h1 h2
      cases h
      exact ⟨parseIPv4_lt h1, parseBits_le h2⟩
    · cases h

/-- What a successful allocation guarantees: the returned string is the
canonical `/32` form of an address that is unclaimed, inside the prefix,
and neither the network nor the broadcast address. -/
theorem allocateVPNIP_spec {cidr : String} {nodes : List NodeInfo} {s : String}
    {a ones : Nat} (hp : parsePfx cidr = some (a, ones))
    (h : allocateVPNIP cidr nodes = some s) :
    ∃ addr, s = ipCIDR32 addr ∧ addr ∉ usedAddrs nodes ∧ addr < 4294967296 ∧
      a / 2 ^ (32 - ones) * 2 ^ (32 - ones) < addr ∧
      addr < a / 2 ^ (32 - ones) * 2 ^ (32 - ones) + 2 ^ (32 - ones) - 1 := by
  obtain ⟨ha32, hones⟩ := parsePfx_bounds hp
  by_cases hc : cidr = ""
  · rw [hc, (rfl : parsePfx "" = none)] at hp
    cases hp
  · unfold allocateVPNIP at h
    rw [if_neg hc, hp] at h
    dsimp only at h
    by_cases hbig : 1048576 < 2 ^ (32 - ones)
    · rw [if_pos hbig] at h
      cases h
    · rw [if_neg hbig] at h
      obtain ⟨i, hfind, hs⟩ := Option.map_eq_some'.mp h
      have hmem := List.mem_of_find?_eq_some hfind
      have hpred := List.find?_some hfind
      rw [List.mem_range'_1] at hmem
      have hdvd : 2 ^ (32 - ones) ∣ 4294967296 := by
        have h32 : (4294967296 : Nat) = 2 ^ 32 := by norm_num
        rw [h32]
        exact pow_dvd_pow 2 (by omega)
      have hbase_le : a / 2 ^ (32 - ones) * 2 ^ (32 - ones) ≤ a :=
        Nat.div_mul_le_self a _
      have hdivlt : a / 2 ^ (32 - ones) < 4294967296 / 2 ^ (32 - ones) :=
        Nat.div_lt_div_of_lt_of_dvd hdvd ha32
      have hbs : a / 2 ^ (32 - ones) * 2 ^ (32 - ones) + 2 ^ (32 - ones) ≤ 4294967296 := by
        have h1 : (a / 2 ^ (32 - ones) + 1) * 2 ^ (32 - ones) ≤
            4294967296 / 2 ^ (32 - ones) * 2 ^ (32 - ones) :=
          Nat.mul_le_mul_right _ hdivlt
        rw [Nat.div_mul_cancel hdvd] at h1
        calc a / 2 ^ (32 - ones) * 2 ^ (32 - ones) + 2 ^ (32 - ones)
            = (a / 2 ^ (32 - ones) + 1) * 2 ^ (32 - ones) := by ring
          _ ≤ 4294967296 := h1
      have haddr_lt : a / 2 ^ (32 - ones) * 2 ^ (32 - ones) + i < 4294967296 := by omega
      have hmod : (a / 2 ^ (32 - ones) * 2 ^ (32 - ones) + i) % 4294967296 =
          a / 2 ^ (32 - ones) * 2 ^ (32 - ones) + i := Nat.mod_eq_of_lt haddr_lt
      refine ⟨a / 2 ^ (32 - ones) * 2 ^ (32 - ones) + i, ?_, ?_, haddr_lt, by omega, by omega⟩
      · rw [← hs, hmod]
      · rw [hmod] at hpred
        simp only [Bool.not_eq_true'] at hpred
        intro hin
        have hct : (usedAddrs nodes).contains
            (a / 2 ^ (32 - ones) * 2 ^ (32 - ones) + i) = true := List.elem_iff.mpr hin
        rw [hct] at hpred
        cases hpred

/-- The sequence of overlays handed out by a run of Register calls,
collecting only the 200 responses. -/
def registerSeq (env : Env) (dok : DirectOK) (now : Int) :
    Registry → List RegisterRequest → List String
  | _, [] => []
  | reg, req :: rest =>
    match (handleRegister env reg dok now req).resp with
    | some resp =>
      resp.vpnIP :: registerSeq env dok now (handleRegister env reg dok now req).reg rest
    | none => registerSeq env dok now (handleRegister env reg dok now req).reg rest

theorem registerSeq_cons (env : Env) (dok : DirectOK) (now : Int) (reg : Registry)
    (req : RegisterRequest) (rest : List RegisterRequest) :
    registerSeq env dok now reg (req :: rest) =
      match (handleRegister env reg dok now req).resp with
      | some resp =>
        resp.vpnIP :: registerSeq env dok now (handleRegister env reg dok now req).reg rest
      | none => registerSeq env dok now (handleRegister env reg dok now req).reg rest := rfl

/-- How one Register call (with no preset overlay) can change the world:
either it fails with the registry possibly upserted, or it succeeds with the
overlay it allocated. -/
theorem handleRegister_cases (env : Env) (reg : Registry) (dok : DirectOK) (now : Int)
    (req : RegisterRequest) (hvp : req.vpnIP = "") :
    ((handleRegister env reg dok now req).resp = none ∧
      ((handleRegister env reg dok now req).reg.nodes = reg.nodes ∨
        ∃ ip, (handleRegister env reg dok now req).reg.nodes =
          (upsertNode reg.nodes req ip now).2)) ∨
    (∃ ip, (∃ resp, (handleRegister env reg dok now req).resp = some resp ∧
        resp.vpnIP = ip) ∧
      allocateVPNIP env.vpnCIDR reg.nodes = some ip ∧
      (handleRegister env reg dok now req).reg.nodes =
        (upsertNode reg.nodes req ip now).2) := by
  unfold handleRegister
  by_cases hv : req.name = "" ∨ req.pubKey = ""
  · rw [if_pos hv]
    exact Or.inl ⟨rfl, Or.inl rfl⟩
  · rw [if_neg hv]
    dsimp only
    rw [if_pos hvp]
    cases halloc : allocateVPNIP env.vpnCIDR reg.nodes with
    | none => exact Or.inl ⟨rfl, Or.inl rfl⟩
    | some ip =>
      cases hs : env.saveOk with
      | false => exact Or.inl ⟨rfl, Or.inr ⟨ip, rfl⟩⟩
      | true =>
        cases hw : env.wgApply && !env.applyOk with
        | true => exact Or.inl ⟨rfl, Or.inr ⟨ip, rfl⟩⟩
        | false => exact Or.inr ⟨ip, ⟨_, rfl, rfl⟩, rfl, rfl⟩

/-- The upsert leaves nodes with a different name untouched. -/
theorem upsertNode_keep {nodes : List NodeInfo} {req : RegisterRequest} {ip : String}
    {now : Int} {n : NodeInfo} (hn : n ∈ nodes) (hne : n.name ≠ req.name) :
    n ∈ (upsertNode nodes req ip now).2 := by
  induction nodes with
  | nil => cases hn
  | cons m rest ih =>
    unfold upsertNode
    by_cases hm : m.name = req.name
    · rw [if_pos hm]
      rcases List.mem_cons.mp hn with rfl | h
      · exact absurd hm hne
      · exact List.mem_cons_of_mem _ h
    · rw [if_neg hm]
      dsimp only
      rcases List.mem_cons.mp hn with rfl | h
      · exact List.mem_cons_self _ _
      · exact List.mem_cons_of_mem _ (ih h)

/-- The upsert leaves a node carrying the caller's name and the stored
overlay. -/
theorem upsertNode_self (nodes : List NodeInfo) (req : RegisterRequest) (ip : String)
    (now : Int) :
    ∃ n ∈ (upsertNode nodes req ip now).2, n.name = req.name ∧ n.vpnIP = ip := by
  induction nodes with
  | nil => exact ⟨_, List.mem_cons_self _ _, rfl, rfl⟩
  | cons m rest ih =>
    unfold upsertNode
    by_cases hm : m.name = req.name
    · rw [if_pos hm]
      exact ⟨_, List.mem_cons_self _ _, hm, rfl⟩
    · rw [if_neg hm]
      dsimp only
      obtain ⟨n, hn, hp1, hp2⟩ := ih
      exact ⟨n, List.mem_cons_of_mem _ hn, hp1, hp2⟩

/-- A node stored in canonical `/32` form puts its address into the
allocator's used set. -/
theorem mem_usedAddrs {nodes : List NodeInfo} {n : NodeInfo} {addr : Nat}
    (hn : n ∈ nodes) (hv : n.vpnIP = ipCIDR32 addr) (ha : addr < 4294967296) :
    addr ∈ usedAddrs nodes := by
  unfold usedAddrs
  refine List.mem_filterMap.mpr ⟨n, hn, ?_⟩
  rw [hv, if_neg (ipCIDR32_ne_empty addr)]
  exact parseUsedAddr_roundtrip addr ha

/-- Every overlay the sequence hands out is the canonical form of an
address strictly inside the prefix (network and broadcast excluded). -/
theorem registerSeq_sound (env : Env) (dok : DirectOK) (now : Int) {a ones : Nat}
    (hp : parsePfx env.vpnCIDR = some (a, ones)) :
    ∀ (reqs : List RegisterRequest) (reg : Registry), (∀ r ∈ reqs, r.vpnIP = "") →
      ∀ s ∈ registerSeq env dok now reg reqs,
        ∃ addr, s = ipCIDR32 addr ∧ addr < 4294967296 ∧
          a / 2 ^ (32 - ones) * 2 ^ (32 - ones) < addr ∧
          addr < a / 2 ^ (32 - ones) * 2 ^ (32 - ones) + 2 ^ (32 - ones) - 1 := by
  intro reqs
  induction reqs with
  | nil =>
    intro reg _ s hs
    exact absurd hs (List.not_mem_nil s)
  | cons req rest ih =>
    intro reg hvp s hs
    rcases handleRegister_cases env reg dok now req (hvp req (List.mem_cons_self _ _)) with
      ⟨hnone, -⟩ | ⟨ip, ⟨resp, hresp, hipeq⟩, halloc, -⟩
    · rw [registerSeq_cons, hnone] at hs
      exact ih _ (fun r hr => hvp r (List.mem_cons_of_mem _ hr)) s hs
    · rw [registerSeq_cons, hresp] at hs
      rcases List.mem_cons.mp hs with rfl | hs'
      · obtain ⟨addr, hip, -, ha32', hlo, hhi⟩ := allocateVPNIP_spec hp halloc
        exact ⟨addr, by rw [hipeq, hip], ha32', hlo, hhi⟩
      · exact ih _ (fun r hr => hvp r (List.mem_cons_of_mem _ hr)) s hs'

/-- An address already stored under a name none of the remaining calls use
is never handed out again. -/
theorem registerSeq_avoid (env : Env) (dok : DirectOK) (now : Int) {a ones : Nat}
    (hp : parsePfx env.vpnCIDR = some (a, ones)) {addr : Nat} (ha : addr < 4294967296)
    {m : String} :
    ∀ (reqs : List RegisterRequest) (reg : Registry),
      (∀ r ∈ reqs, r.vpnIP = "") → (∀ r ∈ reqs, r.name ≠ m) →
      (∃ n ∈ reg.nodes, n.name = m ∧ n.vpnIP = ipCIDR32 addr) →
      ipCIDR32 addr ∉ registerSeq env dok now reg reqs := by
  intro reqs
  induction reqs with
  | nil =>
    intro reg _ _ _ h
    exact absurd h (List.not_mem_nil _)
  | cons req rest ih =>
    intro reg hvp hname hinv
    obtain ⟨n, hn, hnm, hnv⟩ := hinv
    have hreqm : req.name ≠ m := hname req (List.mem_cons_self _ _)
    have hnname : n.name ≠ req.name := by
      rw [hnm]
      exact fun he => hreqm he.symm
    rcases handleRegister_cases env reg dok now req (hvp req (List.mem_cons_self _ _)) with
      ⟨hnone, hnodes⟩ | ⟨ip, ⟨resp, hresp, hipeq⟩, halloc, hnodes⟩
    · rw [registerSeq_cons, hnone]
      refine ih _ (fun r hr => hvp r (List.mem_cons_of_mem _ hr))
        (fun r hr => hname r (List.mem_cons_of_mem _ hr)) ⟨n, ?_, hnm, hnv⟩
      rcases hnodes with heq | ⟨ip, heq⟩
      · rw [heq]
        exact hn
      · rw [heq]
        exact upsertNode_keep hn hnname
    · rw [registerSeq_cons, hresp]
      intro hmem
      rcases List.mem_cons.mp hmem with heq | hmem'
      · obtain ⟨addr', hip, hnotused, ha32', -, -⟩ := allocateVPNIP_spec hp halloc
        have haddr_mem : addr ∈ usedAddrs reg.nodes := mem_usedAddrs hn hnv ha
        have heq' : ipCIDR32 addr = ipCIDR32 addr' := by rw [heq, hipeq, hip]
        have haa : addr = addr' := ipCIDR32_inj ha ha32' heq'
        exact hnotused (haa ▸ haddr_mem)
      · refine (ih _ (fun r hr => hvp r (List.mem_cons_of_mem _ hr))
          (fun r hr => hname r (List.mem_cons_of_mem _ hr)) ⟨n, ?_, hnm, hnv⟩) hmem'
        rw [hnodes]
        exact upsertNode_keep hn hnname

/-- All overlays the sequence hands out are pairwise distinct. -/
theorem registerSeq_nodup (env : Env) (dok : DirectOK) (now : Int) {a ones : Nat}
    (hp : parsePfx env.vpnCIDR = some (a, ones)) :
    ∀ (reqs : List RegisterRequest) (reg : Registry),
      (∀ r ∈ reqs, r.vpnIP = "") → (reqs.map (fun r => r.name)).Nodup →
      (registerSeq env dok now reg reqs).Nodup := by
  intro reqs
  induction reqs with
  | nil =>
    intro reg _ _
    exact List.nodup_nil
  | cons req rest ih =>
    intro reg hvp hnd
    rw [List.map_cons, List.nodup_cons] at hnd
    rcases handleRegister_cases env reg dok now req (hvp req (List.mem_cons_self _ _)) with
      ⟨hnone, -⟩ | ⟨ip, ⟨resp, hresp, hipeq⟩, halloc, hnodes⟩
    · rw [registerSeq_cons, hnone]
      exact ih _ (fun r hr => hvp r (List.mem_cons_of_mem _ hr)) hnd.2
    · rw [registerSeq_cons, hresp]
      refine List.nodup_cons.mpr
        ⟨?_, ih _ (fun r hr => hvp r (List.mem_cons_of_mem _ hr)) hnd.2⟩
      obtain ⟨addr, hip, -, ha32', -, -⟩ := allocateVPNIP_spec hp halloc
      rw [hipeq, hip]
      refine registerSeq_avoid (m := req.name) env dok now hp ha32' rest _
        (fun r hr => hvp r (List.mem_cons_of_mem _ hr)) ?_ ?_
      · intro r hr he
        exact hnd.1 (List.mem_map.mpr ⟨r, hr, he⟩)
      · rw [hnodes]
        obtain ⟨n, hn, hp1, hp2⟩ := upsertNode_self reg.nodes req ip now
        exact ⟨n, hn, hp1, by rw [hp2, hip]⟩

/-- C6: for any sequence of Register calls with distinct names and no
preset overlay, against a configured IPv4 prefix within the sanity ceiling,
every assigned overlay is unique and lies strictly inside the prefix — the
network and broadcast addresses are never assigned. -/
theorem C6_unique_allocation (env : Env) (dok : DirectOK) (now : Int) (reg : Registry)
    (reqs : List RegisterRequest) (a ones : Nat)
    (hp : parsePfx env.vpnCIDR = some (a, ones))
    (hceil : 2 ^ (32 - ones) ≤ 1048576)
    (hvp : ∀ r ∈ reqs, r.vpnIP = "")
    (hnd : (reqs.map (fun r => r.name)).Nodup) :
    (registerSeq env dok now reg reqs).Nodup ∧
    ∀ s ∈ registerSeq env dok now reg reqs,
      ∃ addr, s = ipCIDR32 addr ∧
        a / 2 ^ (32 - ones) * 2 ^ (32 - ones) < addr ∧
        addr < a / 2 ^ (32 - ones) * 2 ^ (32 - ones) + 2 ^ (32 - ones) - 1 := by
  refine ⟨registerSeq_nodup env dok now hp reqs reg hvp hnd, fun s hs => ?_⟩
  obtain ⟨addr, h1, -, h3, h4⟩ := registerSeq_sound env dok now hp reqs reg hvp s hs
  exact ⟨addr, h1, h3, h4⟩

theorem C6_unique_allocation_witness :
    (registerSeq ⟨"10.7.0.0/24", false, true, true, []⟩ [] 0 ⟨0, []⟩
        [⟨"a", "K1", "", "", "", "", 0⟩, ⟨"b", "K2", "", "", "", "", 0⟩]).Nodup ∧
    ∀ s ∈ registerSeq ⟨"10.7.0.0/24", false, true, true, []⟩ [] 0 ⟨0, []⟩
        [⟨"a", "K1", "", "", "", "", 0⟩, ⟨"b", "K2", "", "", "", "", 0⟩],
      ∃ addr, s = ipCIDR32 addr ∧
        168230912 / 2 ^ (32 - 24) * 2 ^ (32 - 24) < addr ∧
        addr < 168230912 / 2 ^ (32 - 24) * 2 ^ (32 - 24) + 2 ^ (32 - 24) - 1 :=
  C6_unique_allocation ⟨"10.7.0.0/24", false, true, true, []⟩ [] 0 ⟨0, []⟩
    [⟨"a", "K1", "", "", "", "", 0⟩, ⟨"b", "K2", "", "", "", "", 0⟩] 168230912 24
    (by decide) (by decide) (by decide) (by decide)

end Vpnctl
